import Mathlib

/-!
Verification of the buffer/accessor memory model, lazy dictionary and skin
export algorithm of the BVH asset reader/writer
(src/code/AssetLib/BVH/BVHAsset.inl, BVHAsset.h, BVHExporter.cpp).

Shallow embedding conventions:
* `size_t` values are `Nat` (the arithmetic in scope never approaches 2^64;
  where a subtraction could wrap this is noted at the definition).
* heap byte arrays are `List (Option Nat)`: a cell holds `some b` when the
  byte was written and `none` when it is uninitialized; reading out of the
  allocated range also yields `none` (unspecified contents).
* a nullable `uint8_t*` data member is `Option (List (Option Nat))`.
* a thrown `DeadlyImportError` is an `Except.error` carrying the error kind
  of the spec's taxonomy (spec section 7).
-/

namespace BVHSpec

/-- Error taxonomy of spec section 7; each `throw DeadlyImportError` site of
the source is mapped to the kind the spec assigns to it. -/
inductive ImportError where
  | parseError
  | invalidDocument
  | missingSection
  | missingObject
  | duplicateId
  | malformedObject
  | notFound
  | ioError
  | serializationError
deriving DecidableEq, Repr

/-- A heap byte region that may be unallocated (`none`), mirroring a nullable
`shared_ptr<uint8_t>` data pointer. -/
abbrev Mem := Option (List (Option Nat))

/-- Read one byte at index `i`: `none` when the pointer is null, the cell is
uninitialized, or the index is outside the allocation. -/
def readByte (m : Mem) (i : Nat) : Option Nat :=
  match m with
  | none => none
  | some l => l.getD i none

/-- `memcpy(l + off, data, data.length)` on an allocated region: writes the
bytes of `data` at indices `off, off+1, ...` (writes beyond the allocation
are dropped; the modelled calls stay in range). -/
def writeBytesList (l : List (Option Nat)) (off : Nat) : List Nat → List (Option Nat)
  | [] => l
  | d :: ds => writeBytesList (l.set off (some d)) (off + 1) ds

/-- `memcpy` through a nullable pointer (a null destination stays null; the
modelled calls only pass null together with an empty `data`). -/
def writeBytes (m : Mem) (off : Nat) (data : List Nat) : Mem :=
  match m with
  | none => none
  | some l => some (writeBytesList l off data)

/-- `Buffer::SEncodedRegion` (BVHAsset.h): a decoded overlay for the byte
range `[Offset, Offset+EncodedData_Length)` of the raw store. -/
structure SEncodedRegion where
  Offset : Nat
  EncodedData_Length : Nat
  DecodedData : List (Option Nat)
  DecodedData_Length : Nat
  ID : String
deriving DecidableEq, Repr

/-- `struct Buffer` (BVHAsset.h): the growable byte store.  `mData` is the
heap region, `capacity` the size recorded by `Grow` (a freshly loaded buffer
keeps `capacity = 0`), `byteLength` the logical length. -/
structure Buffer where
  byteLength : Nat := 0
  capacity : Nat := 0
  mData : Mem := none
  EncodedRegion_List : List SEncodedRegion := []
  EncodedRegion_Current : Option SEncodedRegion := none
deriving DecidableEq, Repr

/-- `Buffer::GetPointer`: the raw data pointer (`none` = null). -/
def Buffer.GetPointer (b : Buffer) : Mem := b.mData

/-- `Buffer::Grow` (BVHAsset.inl 313-328): grow `byteLength` by `amount`,
reallocating to `max(capacity + (capacity >> 1), byteLength + amount)` when
the recorded capacity does not cover the new length.  The reallocation
copies the first `byteLength` live bytes (skipped when `mData` is null,
which coincides with copying unallocated cells). -/
def Buffer.Grow (b : Buffer) (amount : Nat) : Buffer :=
  if amount = 0 then b
  else if b.byteLength + amount ≤ b.capacity then
    { b with byteLength := b.byteLength + amount }
  else
    let newCap := max (b.capacity + b.capacity / 2) (b.byteLength + amount)
    { b with
      capacity := newCap
      mData := some ((List.range newCap).map fun i =>
        if i < b.byteLength then readByte b.mData i else none)
      byteLength := b.byteLength + amount }

/-- `Buffer::AppendData` (BVHAsset.inl 306-311): record the old length,
`Grow`, copy the bytes there and return the old length as the offset. -/
def Buffer.AppendData (b : Buffer) (data : List Nat) : Buffer × Nat :=
  let offset := b.byteLength
  let g := b.Grow data.length
  ({ g with mData := writeBytes g.mData offset data }, offset)

/-- `Buffer::ReplaceData` (BVHAsset.inl 285-304).  Fails (`false`) when
`pBufferData_Count`/`pReplace_Count` is zero or the source pointer is null;
otherwise allocates `byteLength + pReplace_Count - pBufferData_Count` bytes
and fills them with three `memcpy`s.  NOTE the third `memcpy` copies
`pBufferData_Offset` bytes of tail (reproducing the source exactly); the
subtraction cannot wrap for the in-range calls considered here. -/
def Buffer.ReplaceData (b : Buffer) (off cnt : Nat) (repl : Option (List Nat))
    (replCnt : Nat) : Bool × Buffer :=
  let newSize := b.byteLength + replCnt - cnt
  match repl with
  | none => (false, b)
  | some r =>
    if cnt = 0 ∨ replCnt = 0 then (false, b)
    else
      let newData := (List.range newSize).map fun i =>
        if i < off then readByte b.mData i
        else if i < off + replCnt then
          (if i - off < r.length then some (r.getD (i - off) 0) else none)
        else if i < off + replCnt + off then
          -- source index off + cnt + (i - (off + replCnt)) = i + cnt - replCnt
          readByte b.mData (i + cnt - replCnt)
        else none
      (true, { b with mData := some newData, byteLength := newSize })

/-- `Buffer::EncodedRegion_Mark` (BVHAsset.inl 241-269): register a decoded
overlay and bump `byteLength` by the size delta.  Throws `InvalidDocument`
when the decoded pointer is null or the range is out of bounds. -/
def Buffer.EncodedRegion_Mark (b : Buffer) (off encLen : Nat)
    (dec : Option (List (Option Nat))) (decLen : Nat) (rid : String) :
    Except ImportError Buffer :=
  match dec with
  | none => .error .invalidDocument
  | some d =>
    if b.byteLength < off then .error .invalidDocument
    else if b.byteLength < off + encLen then .error .invalidDocument
    else .ok { b with
      EncodedRegion_List := b.EncodedRegion_List ++ [⟨off, encLen, d, decLen, rid⟩]
      byteLength := b.byteLength + decLen - encLen }

/-- `Buffer::EncodedRegion_SetCurrent` (BVHAsset.inl 271-283): select the
first registered region with the given id; `NotFound` when absent. -/
def Buffer.EncodedRegion_SetCurrent (b : Buffer) (rid : String) :
    Except ImportError Buffer :=
  match b.EncodedRegion_Current with
  | some cur =>
    if cur.ID = rid then .ok b
    else
      match b.EncodedRegion_List.find? (fun r => r.ID == rid) with
      | some r => .ok { b with EncodedRegion_Current := some r }
      | none => .error .notFound
  | none =>
    match b.EncodedRegion_List.find? (fun r => r.ID == rid) with
    | some r => .ok { b with EncodedRegion_Current := some r }
    | none => .error .notFound

/-- Outcome of `ParseDataURI` (an out-of-scope collaborator): a manifest
`uri` string is either an inline data-URI (base64 or raw payload bytes) or
an external path. -/
inductive ParsedURI where
  | dataURI (base64 : Bool) (payload : List Nat)
  | external (path : String)
deriving DecidableEq, Repr

/-- The fields of a buffer's manifest entry that `Buffer::Read` consumes:
`MemberOrDefault(obj, "byteLength", 0)` and the classified `uri`. -/
structure BufferManifest where
  statedByteLength : Nat
  uri : Option ParsedURI
deriving DecidableEq, Repr

/-- `Buffer::Read` (BVHAsset.inl 170-224).  `decode` is the external
`Base64::Decode` collaborator (payload text bytes to decoded bytes) and
`openFile` the external file system (path to file contents, `none` =
cannot open).  Base64 branch: the decoded length becomes `byteLength`, and
a nonzero stated length that disagrees with it is an `InvalidDocument`
error.  Raw branch: the payload length must equal the stated length.
External branch: a nonzero stated length is read from the file, failing
with `IOError` on open failure or short read. -/
def Buffer.Read (decode : List Nat → List Nat) (openFile : String → Option (List Nat))
    (m : BufferManifest) : Except ImportError Buffer :=
  match m.uri with
  | none =>
    if 0 < m.statedByteLength then .error .invalidDocument
    else .ok { byteLength := m.statedByteLength }
  | some (.dataURI true payload) =>
    let data := decode payload
    if 0 < m.statedByteLength ∧ data.length ≠ m.statedByteLength then
      .error .invalidDocument
    else .ok { byteLength := data.length, mData := some (data.map some) }
  | some (.dataURI false payload) =>
    if m.statedByteLength ≠ payload.length then .error .invalidDocument
    else .ok { byteLength := m.statedByteLength, mData := some (payload.map some) }
  | some (.external path) =>
    if 0 < m.statedByteLength then
      match openFile path with
      | none => .error .ioError
      | some bytes =>
        if bytes.length < m.statedByteLength then .error .ioError
        else .ok { byteLength := m.statedByteLength
                   mData := some ((bytes.take m.statedByteLength).map some) }
    else .ok { byteLength := m.statedByteLength }

/-- The size of a buffer's actual allocation (0 for a null pointer). -/
def Buffer.allocLen (b : Buffer) : Nat :=
  match b.mData with | none => 0 | some l => l.length

/-- Well-formedness invariant relating the `capacity` field to the actual
allocation: `capacity` never exceeds the allocated size (a null `mData`
forces `capacity = 0`).  It holds for fresh, loaded and grown buffers. -/
def Buffer.WellFormed (b : Buffer) : Prop :=
  b.capacity ≤ b.allocLen

/-- Modelled from the spec: the component-type enumeration of section 3
(`componentType: enum {byte, ubyte, short, ushort, uint, float}`); its
declaration lives in BVHCommon.h, which is not among the sources. -/
inductive ComponentType where
  | byteC
  | unsignedByte
  | shortC
  | unsignedShort
  | unsignedInt
  | float
deriving DecidableEq, Repr

/-- Modelled from the spec: `ComponentTypeSize` (BVHCommon.h, not among the
sources); spec section 4.3, `bytesPerComponent = sizeOf(componentType)`. -/
def ComponentTypeSize : ComponentType → Nat
  | .byteC => 1
  | .unsignedByte => 1
  | .shortC => 2
  | .unsignedShort => 2
  | .unsignedInt => 4
  | .float => 4

/-- Modelled from the spec: the element-shape enumeration `AttribType::Value`
(BVHCommon.h, not among the sources). -/
inductive AttribType where
  | SCALAR
  | VEC2
  | VEC3
  | VEC4
  | MAT2
  | MAT3
  | MAT4
deriving DecidableEq, Repr

/-- Modelled from the spec: `AttribType::GetNumComponents` (BVHCommon.h, not
among the sources); spec section 4.3: 1/2/3/4 for SCALAR/VEC2/VEC3/VEC4 and
4/9/16 for MAT2/3/4. -/
def AttribType.GetNumComponents : AttribType → Nat
  | .SCALAR => 1
  | .VEC2 => 2
  | .VEC3 => 3
  | .VEC4 => 4
  | .MAT2 => 4
  | .MAT3 => 9
  | .MAT4 => 16

/-- `struct BufferView` (BVHAsset.h): a window into one buffer.  The
`buffer` reference is resolved through the buffer dictionary; an absent id
leaves it null, modelled by `Option`; `target` is the usage-hint enum value
(0 when absent). -/
structure BufferView where
  buffer : Option Buffer := none
  byteOffset : Nat := 0
  byteLength : Nat := 0
  target : Nat := 0
deriving DecidableEq, Repr

/-- `struct Accessor` (BVHAsset.h): a typed strided view into a buffer
view. -/
structure Accessor where
  bufferView : Option BufferView := none
  byteOffset : Nat := 0
  byteStride : Nat := 0
  componentType : ComponentType := .byteC
  count : Nat := 0
  type : AttribType := .SCALAR
deriving DecidableEq, Repr

/-- `Accessor::GetNumComponents` (BVHAsset.inl 363-365). -/
def Accessor.GetNumComponents (a : Accessor) : Nat :=
  a.type.GetNumComponents

/-- `Accessor::GetBytesPerComponent` (BVHAsset.inl 367-369). -/
def Accessor.GetBytesPerComponent (a : Accessor) : Nat :=
  ComponentTypeSize a.componentType

/-- `Accessor::GetElementSize` (BVHAsset.inl 371-373). -/
def Accessor.GetElementSize (a : Accessor) : Nat :=
  a.GetNumComponents * a.GetBytesPerComponent

/-- A resolved data pointer: either into the raw buffer store at the given
byte offset, or into the decoded storage of the active encoded region (the
pointer carries that storage, as a pointer into an owned array would). -/
inductive BufPtr where
  | raw (off : Nat)
  | region (dec : List (Option Nat)) (off : Nat)
deriving DecidableEq, Repr

/-- `Accessor::GetPointer` (BVHAsset.inl 375-392): null when the buffer
view, its buffer or the raw base pointer is null; otherwise the offset
`byteOffset + bufferView.byteOffset`, redirected into the active encoded
region's decoded storage when it falls inside that region's decoded span. -/
def Accessor.GetPointer (a : Accessor) : Option BufPtr :=
  match a.bufferView with
  | none => none
  | some v =>
    match v.buffer with
    | none => none
    | some b =>
      match b.GetPointer with
      | none => none
      | some _ =>
        let offset := a.byteOffset + v.byteOffset
        match b.EncodedRegion_Current with
        | some cur =>
          if cur.Offset ≤ offset ∧ offset < cur.Offset + cur.DecodedData_Length then
            some (.region cur.DecodedData (offset - cur.Offset))
          else some (.raw offset)
        | none => some (.raw offset)

/-- Dereference `k` bytes past a resolved pointer against the buffer it was
resolved from. -/
def derefByte (b : Buffer) (p : BufPtr) (k : Nat) : Option Nat :=
  match p with
  | .raw off => readByte b.mData (off + k)
  | .region dec off => dec.getD (off + k) none

/-- `Accessor::ExtractData<T>` (BVHAsset.inl 414-439) with
`targetElemSize = sizeof(T)`: `none` models returning `false` on a null
pointer; otherwise `count` elements are produced, each the `elemSize` bytes
at `i * stride` (stride = `byteStride`, or `elemSize` when 0) padded to
`sizeof(T)` with uninitialized bytes.  The source's bulk-`memcpy` fast path
(stride = elemSize = sizeof(T)) produces exactly these bytes. -/
def Accessor.ExtractData (a : Accessor) (targetElemSize : Nat) :
    Option (List (List (Option Nat))) :=
  match a.bufferView with
  | none => none
  | some v =>
    match v.buffer with
    | none => none
    | some b =>
      match a.GetPointer with
      | none => none
      | some p =>
        let elemSize := a.GetElementSize
        let stride := if a.byteStride = 0 then elemSize else a.byteStride
        some ((List.range a.count).map fun i =>
          (List.range elemSize).map (fun k => derefByte b p (i * stride + k)) ++
            List.replicate (targetElemSize - elemSize) none)

/-- A manifest-section member value as far as `LazyDict<T>::Get` inspects
it: a JSON object (whose type-specific payload is read recursively and does
not matter for the dictionary mechanics) or anything else. -/
inductive JVal where
  | obj
  | nonObj
deriving DecidableEq, Repr

/-- The state of one `LazyDict<T>` (BVHAsset.h): materialized instances in
insertion order (`mObjs`, an instance represented by its id), the id-to-index
map `mObjsById`, and the attached manifest section `mDict` (null when
detached or when `AttachToDocument` found no section with the dictionary's
name). -/
structure LazyDictState where
  mObjs : List String := []
  mObjsById : List (String × Nat) := []
  mDict : Option (List (String × JVal)) := none
deriving DecidableEq, Repr

/-- `LazyDict<T>::Add` (BVHAsset.inl 134-141): push the instance, register
its index under its id, and record the id in the document-global
`mUsedIds`.  Returns the new state, the new used-id set and the index. -/
def lazyAdd (d : LazyDictState) (used : List String) (id : String) :
    LazyDictState × List String × Nat :=
  let idx := d.mObjs.length
  ({ d with mObjs := d.mObjs ++ [id], mObjsById := d.mObjsById ++ [(id, idx)] },
   used ++ [id], idx)

/-- `LazyDict<T>::Create` (BVHAsset.inl 143-152): fails with `DuplicateId`
when the id is used anywhere in the document (the check is against the
document-global `mUsedIds`, not this dictionary). -/
def lazyCreate (d : LazyDictState) (used : List String) (id : String) :
    Except ImportError (LazyDictState × List String × Nat) :=
  if id ∈ used then .error .duplicateId
  else .ok (lazyAdd d used id)

/-- `LazyDict<T>::Get(const char*)` (BVHAsset.inl 104-132): an already
materialized id is returned as is; otherwise the id is looked up in the
attached section (`MissingSection` when `mDict` is null, `MissingObject`
when the key is absent, `MalformedObject` when the value is not a JSON
object) and a fresh instance is read and registered.  `T::TranslateId` is
the identity (as for `Buffer::TranslateId`, BVHAsset.inl 166-168). -/
def lazyGet (d : LazyDictState) (used : List String) (id : String) :
    Except ImportError (LazyDictState × List String × Nat) :=
  match d.mObjsById.find? (fun p => p.1 == id) with
  | some p => .ok (d, used, p.2)
  | none =>
    match d.mDict with
    | none => .error .missingSection
    | some sec =>
      match sec.find? (fun m => m.1 == id) with
      | none => .error .missingObject
      | some (_, .nonObj) => .error .malformedObject
      | some (_, .obj) => .ok (lazyAdd d used id)

/-- The manifest-length gate of `Asset::Load` (BVHAsset.inl 570-578): fewer
than 2 bytes or at least `numeric_limits<uint32_t>::max()` = 4294967295
bytes is an `InvalidDocument` error. -/
def sceneLengthCheck (mSceneLength : Nat) : Except ImportError Unit :=
  if mSceneLength < 2 then .error .invalidDocument
  else if 4294967295 ≤ mSceneLength then .error .invalidDocument
  else .ok ()

/-- The suffixed-candidate phase of `Asset::FindUniqueID` (BVHAsset.inl
660-674): return `base` when unused, else `base ++ "_" ++ i` for the first
`i = 0, 1, 2, ...` whose candidate is unused.  The source loop stops at the
first fresh index; among the first `used.length + 1` candidate indices at
least one is fresh, so the bounded search below computes exactly that
index.  (The source formats candidates into a 1024-byte buffer; the
modelled ids stay far below that size.) -/
def findUniqueSuffixed (used : List String) (base : String) : String :=
  if base ∉ used then base
  else
    base ++ "_" ++ Nat.repr (((List.range (used.length + 1)).find?
      (fun i => !(List.contains used (base ++ "_" ++ Nat.repr i)))).getD 0)

/-- `Asset::FindUniqueID` (BVHAsset.inl 650-675): try `str`, then
`str ++ "_" ++ suffix` (just `suffix` when `str` is empty), then the
numbered candidates. -/
def Asset.FindUniqueID (used : List String) (str : String) (suffix : String) :
    String :=
  if str ≠ "" ∧ str ∉ used then str
  else findUniqueSuffixed used ((if str ≠ "" then str ++ "_" else "") ++ suffix)

/-- The seven attribute semantics of `GetAttribVector`
(BVHAsset.inl 485-503). -/
inductive Semantic where
  | position
  | normal
  | texcoord
  | color
  | joint
  | jointmatrix
  | weight
deriving DecidableEq, Repr

/-- The accessor list a semantic selects inside `Mesh::Primitive::Attributes`
(an entry holds the referenced accessor's id; an unset `Ref` is `none`). -/
structure Attributes where
  position : List (Option String) := []
  normal : List (Option String) := []
  texcoord : List (Option String) := []
  color : List (Option String) := []
  joint : List (Option String) := []
  jointmatrix : List (Option String) := []
  weight : List (Option String) := []
deriving DecidableEq, Repr

/-- Select a semantic's accessor list. -/
def Attributes.get (p : Attributes) : Semantic → List (Option String)
  | .position => p.position
  | .normal => p.normal
  | .texcoord => p.texcoord
  | .color => p.color
  | .joint => p.joint
  | .jointmatrix => p.jointmatrix
  | .weight => p.weight

/-- Replace a semantic's accessor list. -/
def Attributes.set (p : Attributes) (s : Semantic) (v : List (Option String)) :
    Attributes :=
  match s with
  | .position => { p with position := v }
  | .normal => { p with normal := v }
  | .texcoord => { p with texcoord := v }
  | .color => { p with color := v }
  | .joint => { p with joint := v }
  | .jointmatrix => { p with jointmatrix := v }
  | .weight => { p with weight := v }

/-- The semantic name literals of `GetAttribVector` (BVHAsset.inl
485-503), as character lists. -/
def semChars : Semantic → List Char
  | .position => ['P', 'O', 'S', 'I', 'T', 'I', 'O', 'N']
  | .normal => ['N', 'O', 'R', 'M', 'A', 'L']
  | .texcoord => ['T', 'E', 'X', 'C', 'O', 'O', 'R', 'D']
  | .color => ['C', 'O', 'L', 'O', 'R']
  | .joint => ['J', 'O', 'I', 'N', 'T']
  | .jointmatrix => ['J', 'O', 'I', 'N', 'T', 'M', 'A', 'T', 'R', 'I', 'X']
  | .weight => ['W', 'E', 'I', 'G', 'H', 'T']

/-- `GetAttribVector` with the `Compare` prefix tests (BVHAsset.inl
480-503): the attribute key is matched against the semantic literals in
source order by `strncmp(attr, str, N-1)`, i.e. a prefix test; a match
returns the semantic and the literal's length (the source's `pos`).  Note
the `JOINT` test precedes the `JOINTMATRIX` test, so every key starting
with `JOINTMATRIX` is already captured by `JOINT`. -/
def getAttribVector (attr : List Char) : Option (Semantic × Nat) :=
  if List.isPrefixOf (semChars .position) attr then some (.position, 8)
  else if List.isPrefixOf (semChars .normal) attr then some (.normal, 6)
  else if List.isPrefixOf (semChars .texcoord) attr then some (.texcoord, 8)
  else if List.isPrefixOf (semChars .color) attr then some (.color, 5)
  else if List.isPrefixOf (semChars .joint) attr then some (.joint, 5)
  else if List.isPrefixOf (semChars .jointmatrix) attr then some (.jointmatrix, 11)
  else if List.isPrefixOf (semChars .weight) attr then some (.weight, 6)
  else none

/-- The decimal digit characters of `n`, most significant first (the list
`Nat.toDigitsCore` produces in front of its accumulator; used to reason
about the numbered candidates of `Asset::FindUniqueID`). -/
def decDigits (n : Nat) : List Char :=
  if n < 10 then [Nat.digitChar n]
  else decDigits (n / 10) ++ [Nat.digitChar (n % 10)]
termination_by n
decreasing_by exact Nat.div_lt_self (by omega) (by omega)

/-- The numeric value of a digit character. -/
def charVal (c : Char) : Nat := c.toNat - 48

/-- Horner evaluation of a digit string continuing from accumulator `a`. -/
def valFrom (a : Nat) (l : List Char) : Nat :=
  l.foldl (fun acc c => 10 * acc + charVal c) a

/-- `isspace` of the C locale, on the character's code point. -/
def isSpaceChar (c : Char) : Bool :=
  c.toNat = 32 ∨ (9 ≤ c.toNat ∧ c.toNat ≤ 13)

/-- `isdigit`. -/
def isDigitChar (c : Char) : Bool :=
  48 ≤ c.toNat ∧ c.toNat ≤ 57

/-- The digit-consuming loop of `atoi`: accumulate leading decimal digits,
stopping at the first non-digit. -/
def atoiDigits (acc : Nat) : List Char → Nat
  | [] => acc
  | c :: cs => if isDigitChar c then atoiDigits (10 * acc + (c.toNat - 48)) cs else acc

/-- `atoi` (C standard library): skip leading whitespace, take an optional
sign, accumulate decimal digits.  (Values outside `int` overflow in C; the
theorems below restrict slot indices accordingly.) -/
def atoiChars (cs : List Char) : Int :=
  match cs.dropWhile isSpaceChar with
  | '-' :: rest => -(atoiDigits 0 rest : Int)
  | '+' :: rest => (atoiDigits 0 rest : Int)
  | rest => (atoiDigits 0 rest : Int)

/-- The `(size_t)` value of an `int`-valued expression (two's complement
wrap into `[0, 2^64)`). -/
def sizeTOfInt (v : Int) : Nat :=
  (v % (18446744073709551616 : Int)).toNat

/-- The slot-storing step of `Mesh::Read` (BVHAsset.inl 527-529):
`if (vec.size() <= idx) vec.resize(idx + 1); vec[idx] = ref` — grow the
list with unset references when needed, then set slot `idx`. -/
def setSlot (v : List (Option String)) (idx : Nat) (accId : String) :
    List (Option String) :=
  let v' := if v.length ≤ idx then v ++ List.replicate (idx + 1 - v.length) none else v
  v'.set idx (some accId)

/-- A primitive-attribute member value as `Mesh::Read` inspects it. -/
inductive JsonAttrVal where
  | str (s : String)
  | nonStr
deriving DecidableEq, Repr

/-- One iteration of the attribute loop of `Mesh::Read` (BVHAsset.inl
517-531): skip non-string values; skip keys matching no semantic test;
otherwise parse the slot index (`atoi` after a `'_'` at position `pos`,
else 0) and store the referenced accessor (represented by its id; the
source materializes it through `accessors.Get`). -/
def readOneAttr (p : Attributes) (attr : List Char) (v : JsonAttrVal) :
    Attributes :=
  match v with
  | .nonStr => p
  | .str accId =>
    match getAttribVector attr with
    | none => p
    | some (sem, pos) =>
      let idx := if attr.getD pos (Char.ofNat 0) = '_' then
        sizeTOfInt (atoiChars (attr.drop (pos + 1))) else 0
      p.set sem (setSlot (p.get sem) idx accId)

/-- The whole `attributes` loop of `Mesh::Read`, over the object's members
in order. -/
def readAttrs (p : Attributes) (entries : List (List Char × JsonAttrVal)) :
    Attributes :=
  entries.foldl (fun p e => readOneAttr p e.1 e.2) p

/-- A `vec4` of the skin exporter.  The exporter only copies the host
scene's float weights into slots and out again (no arithmetic), so the
component values are modelled exactly, as rationals. -/
structure Vec4 where
  c0 : ℚ
  c1 : ℚ
  c2 : ℚ
  c3 : ℚ
deriving DecidableEq, Repr

/-- The zero-initialized `vec4` of the per-vertex accumulators
(BVHExporter.cpp 145-151). -/
def Vec4.zero : Vec4 := ⟨0, 0, 0, 0⟩

/-- `v[i] = x` for a component index produced by the exporter (always in
`0..3` there, guarded by the influence counter). -/
def Vec4.setComp (v : Vec4) (i : Nat) (x : ℚ) : Vec4 :=
  match i with
  | 0 => { v with c0 := x }
  | 1 => { v with c1 := x }
  | 2 => { v with c2 := x }
  | 3 => { v with c3 := x }
  | _ => v

/-- The three per-vertex scratch arrays of `ExportSkin`
(BVHExporter.cpp 141-151): joint indices, weights (both `vec4`, zero
initialized) and the influence counter. -/
structure SkinArrays where
  vertexJointData : List Vec4
  vertexWeightData : List Vec4
  jointsPerVertex : List Nat
deriving DecidableEq, Repr

/-- The zero-initialized arrays for `NumVerts` vertices
(BVHExporter.cpp 145-151). -/
def initSkinArrays (numVerts : Nat) : SkinArrays :=
  ⟨List.replicate numVerts Vec4.zero, List.replicate numVerts Vec4.zero,
   List.replicate numVerts 0⟩

/-- One `(vertexId, weight)` contribution of a bone with joint index
`jointIdx` (BVHExporter.cpp 181-194): when the vertex already has more than
3 recorded influences the contribution is dropped; otherwise the pair is
written into the next free slot and the counter incremented. -/
def processOne (st : SkinArrays) (jointIdx vertexId : Nat) (w : ℚ) : SkinArrays :=
  if 3 < st.jointsPerVertex.getD vertexId 0 then st
  else
    { vertexJointData :=
        st.vertexJointData.set vertexId
          ((st.vertexJointData.getD vertexId Vec4.zero).setComp
            (st.jointsPerVertex.getD vertexId 0) (jointIdx : ℚ))
      vertexWeightData :=
        st.vertexWeightData.set vertexId
          ((st.vertexWeightData.getD vertexId Vec4.zero).setComp
            (st.jointsPerVertex.getD vertexId 0) w)
      jointsPerVertex :=
        st.jointsPerVertex.set vertexId (st.jointsPerVertex.getD vertexId 0 + 1) }

/-- A bone as the weight loop of `ExportSkin` sees it: the joint index
assigned to it (`jointNamesIndex`, computed by the joint-deduplication
block at BVHExporter.cpp 161-178) and its `(mVertexId, mWeight)` list. -/
structure BoneInput where
  jointIdx : Nat
  weights : List (Nat × ℚ)
deriving DecidableEq, Repr

/-- The weight loop of one bone (BVHExporter.cpp 181-194). -/
def processBoneWeights (st : SkinArrays) (b : BoneInput) : SkinArrays :=
  b.weights.foldl (fun st vw => processOne st b.jointIdx vw.1 vw.2) st

/-- The accumulation phase of `ExportSkin` (BVHExporter.cpp 141-196):
initialize the per-vertex arrays and fold the bones' weight lists over
them in order. -/
def exportSkinArrays (numVerts : Nat) (bones : List BoneInput) : SkinArrays :=
  bones.foldl processBoneWeights (initSkinArrays numVerts)

/-- The `(jointIndex, weight)` influences contributed to vertex `v`, in
contribution order (bones in order, each bone's weight list in order). -/
def contributionsTo (v : Nat) (bones : List BoneInput) : List (Nat × ℚ) :=
  bones.flatMap fun b =>
    b.weights.filterMap fun vw => if vw.1 = v then some (b.jointIdx, vw.2) else none

/-- The `vec4` whose slots hold the first four of the given values, the
remaining slots zero. -/
def firstFourVec (ws : List ℚ) : Vec4 :=
  ⟨ws.getD 0 0, ws.getD 1 0, ws.getD 2 0, ws.getD 3 0⟩

/-- The whole contribution stream of the bone loop, flattened to
`(jointIdx, vertexId, weight)` triples in processing order. -/
def flatContribs (bones : List BoneInput) : List (Nat × Nat × ℚ) :=
  bones.flatMap fun b => b.weights.map fun vw => (b.jointIdx, vw.1, vw.2)

/-- `processOne` uncurried over a flattened contribution triple. -/
def processTriple (st : SkinArrays) (t : Nat × Nat × ℚ) : SkinArrays :=
  processOne st t.1 t.2.1 t.2.2

/-- The `(joint vector, weight vector, counter)` state of one vertex. -/
def vertexView (st : SkinArrays) (v : Nat) : Vec4 × Vec4 × Nat :=
  (st.vertexJointData.getD v Vec4.zero, st.vertexWeightData.getD v Vec4.zero,
   st.jointsPerVertex.getD v 0)

/-- The effect of one `(jointIndex, weight)` influence on a single
vertex's state: dropped when the counter exceeds 3, otherwise written into
the slot the counter names. -/
def singleStep (s : Vec4 × Vec4 × Nat) (jw : Nat × ℚ) : Vec4 × Vec4 × Nat :=
  if 3 < s.2.2 then s
  else (s.1.setComp s.2.2 (jw.1 : ℚ), s.2.1.setComp s.2.2 jw.2, s.2.2 + 1)

/-- A vertex's state after a list of influences. -/
def singleFold (s : Vec4 × Vec4 × Nat) (ps : List (Nat × ℚ)) : Vec4 × Vec4 × Nat :=
  ps.foldl singleStep s

/-! ### Concrete inputs used by the witnesses -/

/-- A concrete full 2-byte buffer used by the C3 witness. -/
def sampleBuf2 : Buffer :=
  { byteLength := 2, capacity := 2, mData := some [some 5, some 6] }

/-- The accessor used to read back an appended byte range: a tightly
packed unsigned-byte SCALAR accessor over a view that covers exactly
`[off, off+len)` of the buffer. -/
def coveringByteAccessor (buf : Buffer) (off len : Nat) : Accessor :=
  { bufferView := some { buffer := some buf, byteOffset := off, byteLength := len }
    byteOffset := 0
    byteStride := 0
    componentType := .unsignedByte
    count := len
    type := .SCALAR }

/-- An accessor whose resolved logical address is `addr` (accessor offset
`addr` into a view at offset 0 of the given buffer); the typed fields are
irrelevant to `GetPointer`. -/
def mkAddrAccessor (b : Buffer) (addr : Nat) : Accessor :=
  { bufferView := some { buffer := some b }, byteOffset := addr }

/-- The concrete store of the C5 witness: 100 readable bytes with no
regions. -/
def regionBuf : Buffer :=
  { byteLength := 100, capacity := 0, mData := some (List.replicate 100 (some 0)) }

/-- The concrete decoded overlay bytes of the C5 witness. -/
def regionDec : List (Option Nat) := List.replicate 8 (some 1)

/-- A concrete document for the C7 witness: dictionary A already holds
`"x"` at index 0 (so `"x"` is in the used-id set), dictionary B is empty
with an attached section containing only `"y"`, dictionary C is empty and
never attached. -/
def dictA : LazyDictState :=
  { mObjs := ["x"], mObjsById := [("x", 0)], mDict := none }

/-- The attached-but-`"x"`-free dictionary of the C7 witness. -/
def dictB : LazyDictState :=
  { mObjs := [], mObjsById := [], mDict := some [("y", .obj)] }

/-- The never-attached dictionary of the C7 witness. -/
def dictC : LazyDictState :=
  { mObjs := [], mObjsById := [], mDict := none }

/-- The single-bone input of the C2 witness: five weights contributed to
vertex 0 in order `0.1, 0.2, 0.3, 0.2, 0.2`. -/
def fiveWeightBone : BoneInput :=
  ⟨0, [(0, 1/10), (0, 2/10), (0, 3/10), (0, 2/10), (0, 2/10)]⟩

/-! ## Helper lemmas -/

theorem getD_range_map {α : Type} (f : Nat → α) (d : α) (n k : Nat) (h : k < n) :
    ((List.range n).map f).getD k d = f k := by
  rw [List.getD_eq_getElem?_getD, List.getElem?_map, List.getElem?_range h]
  rfl

/-! ## C3: `Buffer::Grow` increases `byteLength` by exactly `n` and
preserves every previously readable byte -/

theorem grow_byteLength_add (b : Buffer) (n : Nat) :
    (b.Grow n).byteLength = b.byteLength + n := by
  unfold Buffer.Grow
  split
  · subst ‹n = 0›; simp
  · split <;> simp

theorem grow_preserves (b : Buffer) (n : Nat) :
    ∀ k, k < b.byteLength → readByte (b.Grow n).mData k = readByte b.mData k := by
  unfold Buffer.Grow
  split
  · simp
  · split
    · simp
    · intro k hk
      simp only [readByte]
      rw [getD_range_map]
      · simp [hk, readByte]
      · calc k < b.byteLength + n := by omega
          _ ≤ max (b.capacity + b.capacity / 2) (b.byteLength + n) := le_max_right _ _

/-- C3: for every buffer and every `n`, `Grow n` adds exactly `n` to
`byteLength` and every byte at an offset below the old `byteLength` reads
the same as before, in both the in-capacity and the reallocation path. -/
theorem C3_grow_spec (b : Buffer) (n : Nat) :
    (b.Grow n).byteLength = b.byteLength + n ∧
    ∀ k, k < b.byteLength → readByte (b.Grow n).mData k = readByte b.mData k :=
  ⟨grow_byteLength_add b n, grow_preserves b n⟩

/-- Witness for C3 at a concrete buffer: growing a full 2-byte buffer by 3
reallocates, yields length 5 and preserves byte 1. -/
theorem C3_grow_spec_witness :
    1 < sampleBuf2.byteLength ∧
    (sampleBuf2.Grow 3).byteLength = sampleBuf2.byteLength + 3 ∧
    readByte (sampleBuf2.Grow 3).mData 1 = readByte sampleBuf2.mData 1 :=
  ⟨by decide, (C3_grow_spec sampleBuf2 3).1,
   (C3_grow_spec sampleBuf2 3).2 1 (by decide)⟩

/-! ## C4: `Buffer::AppendData` returns the old length and the appended
bytes read back exactly -/

theorem allocLen_of_some {b : Buffer} {l : List (Option Nat)}
    (h : b.mData = some l) : b.allocLen = l.length := by
  unfold Buffer.allocLen; rw [h]

theorem allocLen_of_none {b : Buffer} (h : b.mData = none) : b.allocLen = 0 := by
  unfold Buffer.allocLen; rw [h]

theorem grow_alloc (b : Buffer) (amount : Nat) (hWF : b.WellFormed)
    (h0 : 0 < amount) :
    ∃ l, (b.Grow amount).mData = some l ∧ b.byteLength + amount ≤ l.length := by
  have hWF' : b.capacity ≤ b.allocLen := hWF
  unfold Buffer.Grow
  rw [if_neg (by omega)]
  split
  · rename_i hcap
    match hm : b.mData with
    | none =>
      rw [allocLen_of_none hm] at hWF'
      omega
    | some l =>
      rw [allocLen_of_some hm] at hWF'
      exact ⟨l, by simp [hm], by omega⟩
  · refine ⟨_, rfl, ?_⟩
    rw [List.length_map, List.length_range]
    exact le_max_right _ _

theorem writeBytesList_length (data : List Nat) :
    ∀ (l : List (Option Nat)) (off : Nat),
      (writeBytesList l off data).length = l.length := by
  induction data with
  | nil => intro l off; rfl
  | cons d ds ih =>
    intro l off
    rw [writeBytesList, ih, List.length_set]

theorem writeBytesList_getD_lt (data : List Nat) :
    ∀ (l : List (Option Nat)) (off k : Nat), k < off →
      (writeBytesList l off data).getD k none = l.getD k none := by
  induction data with
  | nil => intro l off k _; rfl
  | cons d ds ih =>
    intro l off k hk
    rw [writeBytesList, ih _ _ _ (by omega)]
    rw [List.getD_eq_getElem?_getD, List.getD_eq_getElem?_getD,
      List.getElem?_set_ne (by omega)]

theorem writeBytesList_getD_in (data : List Nat) :
    ∀ (l : List (Option Nat)) (off : Nat), off + data.length ≤ l.length →
      ∀ k, k < data.length →
        (writeBytesList l off data).getD (off + k) none = some (data.getD k 0) := by
  induction data with
  | nil => intro l off _ k hk; simp at hk
  | cons d ds ih =>
    intro l off hlen k hk
    rw [writeBytesList]
    match k with
    | 0 =>
      simp only [Nat.add_zero]
      rw [writeBytesList_getD_lt ds _ _ _ (by omega)]
      rw [List.getD_eq_getElem?_getD,
        List.getElem?_set_self (by simp at hlen; omega)]
      rfl
    | k' + 1 =>
      have heq : off + (k' + 1) = (off + 1) + k' := by omega
      rw [heq, ih _ (off + 1) (by simp at hlen ⊢; omega) k' (by simp at hk; omega)]
      rfl

theorem appendData_offset (b : Buffer) (data : List Nat) :
    (b.AppendData data).2 = b.byteLength := rfl

theorem appendData_bytes (b : Buffer) (data : List Nat) (hWF : b.WellFormed)
    (hne : 0 < data.length) :
    ∀ k, k < data.length →
      readByte (b.AppendData data).1.mData (b.byteLength + k) =
        some (data.getD k 0) := by
  intro k hk
  obtain ⟨l, hl, hlen⟩ := grow_alloc b data.length hWF hne
  show readByte (writeBytes (b.Grow data.length).mData b.byteLength data) _ = _
  rw [hl]
  show (writeBytesList l b.byteLength data).getD (b.byteLength + k) none = _
  exact writeBytesList_getD_in data l b.byteLength (by omega) k hk

theorem appendData_region (b : Buffer) (data : List Nat) :
    (b.AppendData data).1.EncodedRegion_Current = b.EncodedRegion_Current := by
  show (b.Grow data.length).EncodedRegion_Current = _
  unfold Buffer.Grow
  split
  · rfl
  · split <;> rfl

theorem extract_covering (buf : Buffer) (off len : Nat)
    {l : List (Option Nat)} (hmd : buf.mData = some l)
    (hcur : buf.EncodedRegion_Current = none) :
    (coveringByteAccessor buf off len).ExtractData 1 =
      some ((List.range len).map fun i => [readByte buf.mData (off + i)]) := by
  simp only [coveringByteAccessor, Accessor.ExtractData, Accessor.GetPointer,
    Buffer.GetPointer, hmd, hcur, Accessor.GetElementSize,
    Accessor.GetNumComponents, Accessor.GetBytesPerComponent,
    AttribType.GetNumComponents, ComponentTypeSize]
  refine congrArg some (List.map_congr_left fun i _ => ?_)
  simp [derefByte, readByte, hmd, List.range_succ]

theorem appendData_extract (b : Buffer) (data : List Nat) (hWF : b.WellFormed)
    (hreg : b.EncodedRegion_Current = none) (hne : 0 < data.length) :
    (coveringByteAccessor (b.AppendData data).1 b.byteLength
        data.length).ExtractData 1 =
      some (data.map fun x => [some x]) := by
  obtain ⟨l, hl, hlen⟩ := grow_alloc b data.length hWF hne
  have hmem : (b.AppendData data).1.mData =
      some (writeBytesList l b.byteLength data) := by
    show writeBytes (b.Grow data.length).mData b.byteLength data = _
    rw [hl]; rfl
  have hcur : (b.AppendData data).1.EncodedRegion_Current = none :=
    (appendData_region b data).trans hreg
  rw [extract_covering _ _ _ hmem hcur]
  refine congrArg some (List.ext_getElem (by simp) fun i h1 h2 => ?_)
  have hi : i < data.length := by simpa using h2
  simp only [List.getElem_map, List.getElem_range]
  rw [appendData_bytes b data hWF hne i hi]
  have : data.getD i 0 = data[i] := by
    rw [List.getD_eq_getElem?_getD, List.getElem?_eq_getElem hi]; rfl
  rw [this]

/-- C4: `AppendData(data, length)` returns the pre-call `byteLength`; after
the call the `length` bytes at that offset are byte-identical to the
appended data, and a typed extraction through a tightly packed byte
accessor covering exactly that range reproduces the bytes (the appended
range is taken non-empty so that the extraction has a non-null data
pointer; no encoded region is active). -/
theorem C4_appendData_spec (b : Buffer) (data : List Nat) (hWF : b.WellFormed)
    (hreg : b.EncodedRegion_Current = none) (hne : 0 < data.length) :
    (b.AppendData data).2 = b.byteLength ∧
    (∀ k, k < data.length →
      readByte (b.AppendData data).1.mData (b.byteLength + k) =
        some (data.getD k 0)) ∧
    (coveringByteAccessor (b.AppendData data).1 b.byteLength
        data.length).ExtractData 1 =
      some (data.map fun x => [some x]) :=
  ⟨appendData_offset b data, appendData_bytes b data hWF hne,
   appendData_extract b data hWF hreg hne⟩

/-- Witness for C4: appending `[7, 8, 9]` to a fresh empty buffer returns
offset 0, the bytes read back, and the covering byte accessor extracts
`[[7], [8], [9]]`. -/
theorem C4_appendData_spec_witness :
    (({} : Buffer).WellFormed ∧ ({} : Buffer).EncodedRegion_Current = none ∧
      0 < ([7, 8, 9] : List Nat).length) ∧
    (({} : Buffer).AppendData [7, 8, 9]).2 = ({} : Buffer).byteLength ∧
    readByte (({} : Buffer).AppendData [7, 8, 9]).1.mData
      (({} : Buffer).byteLength + 2) = some 9 ∧
    (coveringByteAccessor (({} : Buffer).AppendData [7, 8, 9]).1
        ({} : Buffer).byteLength 3).ExtractData 1 =
      some [[some 7], [some 8], [some 9]] := by
  have hwf : ({} : Buffer).WellFormed := by
    unfold Buffer.WellFormed Buffer.allocLen; decide
  have h := C4_appendData_spec {} [7, 8, 9] hwf (by decide) (by decide)
  exact ⟨⟨hwf, by decide, by decide⟩, h.1, h.2.1 2 (by decide), h.2.2⟩

/-! ## C1: `Buffer::ReplaceData` and the bytes after the replaced range -/

/-- C1 (code bug): evaluating `ReplaceData(2, 3, [100,101,102], 3)` on a
10-byte buffer holding bytes `0..9`.  The call returns `true`; the prefix
`[0,2)` and the replacement `[2,5)` land correctly and the tail copy moves
only `pBufferData_Offset = 2` bytes (new bytes 5 and 6), leaving bytes 7..9
uninitialized — the claim (and spec sections 4.2 and 9) require all old
bytes from `offset+oldCount` to the old end, i.e. old bytes 5..9, to be
preserved. -/
theorem C1_replaceData_eval :
    let b0 : Buffer :=
      { byteLength := 10, capacity := 10, mData := some ((List.range 10).map some) }
    let r := b0.ReplaceData 2 3 (some [100, 101, 102]) 3
    r.1 = true ∧
    r.2.byteLength = 10 ∧
    readByte r.2.mData 0 = some 0 ∧
    readByte r.2.mData 1 = some 1 ∧
    readByte r.2.mData 2 = some 100 ∧
    readByte r.2.mData 4 = some 102 ∧
    readByte r.2.mData 5 = some 5 ∧
    readByte r.2.mData 6 = some 6 ∧
    readByte r.2.mData 7 = none ∧
    readByte r.2.mData 8 = none ∧
    readByte r.2.mData 9 = none ∧
    readByte (some ((List.range 10).map some)) 7 = some 7 := by
  decide

/-! ## C5: encoded-region marking and pointer redirection -/

/-- C5: a successful `EncodedRegion_Mark(offset, encLen, decoded, decLen,
id)` (in-bounds range, non-null decoded data, id not already registered,
no region active) adjusts `byteLength` by exactly `decLen - encLen`, and
after `EncodedRegion_SetCurrent(id)` selects the region, `GetPointer`
through any accessor resolves logical addresses in
`[offset, offset+decLen)` into the region's decoded storage and all other
addresses into the raw store. -/
theorem C5_encodedRegion_spec (b : Buffer) (off encLen decLen : Nat)
    (d : List (Option Nat)) (rid : String)
    (hb : off + encLen ≤ b.byteLength)
    (hfresh : ∀ r ∈ b.EncodedRegion_List, r.ID ≠ rid)
    (hcur : b.EncodedRegion_Current = none) :
    ∃ b1, b.EncodedRegion_Mark off encLen (some d) decLen rid = .ok b1 ∧
      b1.byteLength = b.byteLength + decLen - encLen ∧
      ∃ b2, b1.EncodedRegion_SetCurrent rid = .ok b2 ∧
        b2.mData = b.mData ∧
        ∀ (a : Accessor) (v : BufferView), a.bufferView = some v →
          v.buffer = some b2 → b2.mData.isSome = true →
          ((off ≤ a.byteOffset + v.byteOffset ∧
              a.byteOffset + v.byteOffset < off + decLen →
            a.GetPointer = some (.region d (a.byteOffset + v.byteOffset - off))) ∧
           ((a.byteOffset + v.byteOffset < off ∨
              off + decLen ≤ a.byteOffset + v.byteOffset) →
            a.GetPointer = some (.raw (a.byteOffset + v.byteOffset)))) := by
  have hmark : b.EncodedRegion_Mark off encLen (some d) decLen rid =
      .ok { b with
        EncodedRegion_List := b.EncodedRegion_List ++ [⟨off, encLen, d, decLen, rid⟩]
        byteLength := b.byteLength + decLen - encLen } := by
    simp only [Buffer.EncodedRegion_Mark]
    rw [if_neg (by omega), if_neg (by omega)]
  refine ⟨_, hmark, rfl, ?_⟩
  have hset : Buffer.EncodedRegion_SetCurrent
      { b with
        EncodedRegion_List := b.EncodedRegion_List ++ [⟨off, encLen, d, decLen, rid⟩]
        byteLength := b.byteLength + decLen - encLen } rid =
      .ok { b with
        EncodedRegion_List := b.EncodedRegion_List ++ [⟨off, encLen, d, decLen, rid⟩]
        byteLength := b.byteLength + decLen - encLen
        EncodedRegion_Current := some ⟨off, encLen, d, decLen, rid⟩ } := by
    simp only [Buffer.EncodedRegion_SetCurrent, hcur]
    rw [List.find?_append]
    have h1 : b.EncodedRegion_List.find? (fun r => r.ID == rid) = none := by
      rw [List.find?_eq_none]
      intro r hr
      simpa using hfresh r hr
    rw [h1]
    simp
  refine ⟨_, hset, rfl, ?_⟩
  intro a v ha hv hsome
  obtain ⟨l, hl⟩ := Option.isSome_iff_exists.mp hsome
  have hl' : b.mData = some l := hl
  constructor
  · intro hin
    simp only [Accessor.GetPointer, ha, hv, Buffer.GetPointer, hl']
    rw [if_pos hin]
  · intro hout
    simp only [Accessor.GetPointer, ha, hv, Buffer.GetPointer, hl']
    rw [if_neg (by intro hin; rcases hout with h | h <;> omega)]

/-- Witness for C5, matching the spec's example: marking
`(offset 10, encoded 5, decoded 8)` on a 100-byte store yields
`byteLength = 103`, and with the region current, address 12 resolves into
the decoded storage while addresses 9 and 18 resolve into the raw store. -/
theorem C5_encodedRegion_spec_witness :
    ∃ b1, regionBuf.EncodedRegion_Mark 10 5 (some regionDec) 8 "r" = .ok b1 ∧
      b1.byteLength = 103 ∧
      ∃ b2, b1.EncodedRegion_SetCurrent "r" = .ok b2 ∧
        (mkAddrAccessor b2 12).GetPointer = some (.region regionDec 2) ∧
        (mkAddrAccessor b2 9).GetPointer = some (.raw 9) ∧
        (mkAddrAccessor b2 18).GetPointer = some (.raw 18) := by
  obtain ⟨b1, h1, hbl, b2, h2, hmd, hptr⟩ :=
    C5_encodedRegion_spec regionBuf 10 5 8 regionDec "r" (by decide)
      (by intro r hr; simp [regionBuf] at hr) rfl
  have hsome : b2.mData.isSome = true := by rw [hmd]; rfl
  refine ⟨b1, h1, by simpa using hbl, b2, h2, ?_, ?_, ?_⟩
  · have h := (hptr (mkAddrAccessor b2 12) { buffer := some b2 } rfl rfl hsome).1
      (by simp [mkAddrAccessor])
    simpa [mkAddrAccessor] using h
  · have h := (hptr (mkAddrAccessor b2 9) { buffer := some b2 } rfl rfl hsome).2
      (by simp [mkAddrAccessor])
    simpa [mkAddrAccessor] using h
  · have h := (hptr (mkAddrAccessor b2 18) { buffer := some b2 } rfl rfl hsome).2
      (by simp [mkAddrAccessor])
    simpa [mkAddrAccessor] using h

/-! ## C6: `Buffer::Read` and inline data-URI length checking -/

/-- C6 (counterexample): a base64 data-URI whose decoded payload has length
1 while the manifest states `byteLength` 0 — the decoded length disagrees
with the stated length, yet `Buffer::Read` succeeds (the mismatch check is
guarded by `statedLength > 0`), taking the decoded length as the buffer
length instead of failing with `InvalidDocument`. -/
theorem C6_counterexample :
    Buffer.Read (fun _ => [42]) (fun _ => none)
        { statedByteLength := 0, uri := some (.dataURI true [65]) } =
      .ok { byteLength := 1, mData := some [some 42] } ∧
    ((fun (_ : List Nat) => [42]) [65]).length ≠
      ({ statedByteLength := 0,
         uri := some (.dataURI true [65]) } : BufferManifest).statedByteLength :=
  ⟨rfl, by decide⟩

/-- C6 (amended): for an inline base64 data-URI, a *nonzero* stated
`byteLength` that disagrees with the decoded payload length fails the load
with `InvalidDocument` (and the failure returns no buffer, so no side
effects are visible to the caller); a zero/absent stated `byteLength`
accepts the decoded length as-is; for a raw (non-base64) data-URI the
payload length must equal the stated `byteLength` — even a zero one — or
the load fails with `InvalidDocument`. -/
theorem C6_read_amended (decode : List Nat → List Nat)
    (openFile : String → Option (List Nat)) (m : BufferManifest) :
    (∀ payload, m.uri = some (.dataURI true payload) →
      0 < m.statedByteLength → (decode payload).length ≠ m.statedByteLength →
      Buffer.Read decode openFile m = .error .invalidDocument) ∧
    (∀ payload, m.uri = some (.dataURI true payload) →
      m.statedByteLength = 0 →
      Buffer.Read decode openFile m =
        .ok { byteLength := (decode payload).length
              mData := some ((decode payload).map some) }) ∧
    (∀ payload, m.uri = some (.dataURI false payload) →
      payload.length ≠ m.statedByteLength →
      Buffer.Read decode openFile m = .error .invalidDocument) := by
  refine ⟨fun payload hu h0 hne => ?_, fun payload hu h0 => ?_,
    fun payload hu hne => ?_⟩
  · simp only [Buffer.Read, hu]
    rw [if_pos ⟨h0, hne⟩]
  · simp only [Buffer.Read, hu]
    rw [if_neg (by omega)]
  · simp only [Buffer.Read, hu]
    rw [if_pos (by omega)]

/-- Witness for C6 (amended) at concrete manifests: a base64 payload
decoding to one byte against stated length 5 fails; the same against
stated length 0 succeeds with length 1; a raw 2-byte payload against
stated length 1 fails. -/
theorem C6_read_amended_witness :
    Buffer.Read (fun _ => [42]) (fun _ => none)
        { statedByteLength := 5, uri := some (.dataURI true [65]) } =
      .error .invalidDocument ∧
    Buffer.Read (fun _ => [42]) (fun _ => none)
        { statedByteLength := 0, uri := some (.dataURI true [65]) } =
      .ok { byteLength := 1, mData := some [some 42] } ∧
    Buffer.Read (fun _ => [42]) (fun _ => none)
        { statedByteLength := 1, uri := some (.dataURI false [7, 8]) } =
      .error .invalidDocument :=
  ⟨(C6_read_amended (fun _ => [42]) (fun _ => none)
      { statedByteLength := 5, uri := some (.dataURI true [65]) }).1
        [65] rfl (by decide) (by decide),
   (C6_read_amended (fun _ => [42]) (fun _ => none)
      { statedByteLength := 0, uri := some (.dataURI true [65]) }).2.1
        [65] rfl rfl,
   (C6_read_amended (fun _ => [42]) (fun _ => none)
      { statedByteLength := 1, uri := some (.dataURI false [7, 8]) }).2.2
        [7, 8] rfl (by decide)⟩

/-! ## C9: primitive-attribute key parsing in `Mesh::Read` -/

theorem getAttribVector_prefix (sem : Semantic) (hsem : sem ≠ .jointmatrix)
    (t : List Char) :
    getAttribVector (semChars sem ++ t) = some (sem, (semChars sem).length) := by
  cases sem <;> simp_all [getAttribVector, semChars, List.isPrefixOf]

theorem isDigitChar_not_space {c : Char} (h : isDigitChar c = true) :
    isSpaceChar c = false := by
  simp only [isDigitChar, decide_eq_true_eq] at h
  simp only [isSpaceChar, decide_eq_false_iff_not]
  omega

theorem atoiDigits_eq_valFrom (ds : List Char) :
    (∀ c ∈ ds, isDigitChar c = true) →
      ∀ acc, atoiDigits acc ds = valFrom acc ds := by
  induction ds with
  | nil => intro _ acc; rfl
  | cons c rest ih =>
    intro h acc
    have hc := h c (by simp)
    simp only [atoiDigits, hc, if_true]
    rw [ih (fun x hx => h x (by simp [hx])) (10 * acc + (c.toNat - 48))]
    rfl

theorem atoiChars_digits (c : Char) (rest : List Char)
    (hc : isDigitChar c = true) :
    atoiChars (c :: rest) = (atoiDigits 0 (c :: rest) : Int) := by
  have hs := isDigitChar_not_space hc
  unfold atoiChars
  rw [List.dropWhile_cons]
  rw [hs]
  simp only [Bool.false_eq_true, if_false]
  split
  · rename_i r heq
    rw [List.cons.injEq] at heq
    rw [heq.1] at hc
    exact absurd hc (by decide)
  · rename_i r heq
    rw [List.cons.injEq] at heq
    rw [heq.1] at hc
    exact absurd hc (by decide)
  · rfl

theorem sizeTOfInt_small {v : Nat} (h : v < 18446744073709551616) :
    sizeTOfInt (v : Int) = v := by
  unfold sizeTOfInt
  rw [Int.emod_eq_of_lt (by positivity) (by exact_mod_cast h)]
  exact Int.toNat_natCast v

theorem readOneAttr_suffixed (p : Attributes) (sem : Semantic)
    (hsem : sem ≠ .jointmatrix) (a : String) (ds : List Char)
    (hne : ds ≠ []) (hdig : ∀ c ∈ ds, isDigitChar c = true)
    (hlt : valFrom 0 ds < 2147483648) :
    readOneAttr p (semChars sem ++ '_' :: ds) (.str a) =
      p.set sem (setSlot (p.get sem) (valFrom 0 ds) a) := by
  have hget : (semChars sem ++ '_' :: ds).getD (semChars sem).length
      (Char.ofNat 0) = '_' := by
    rw [List.getD_eq_getElem?_getD, List.getElem?_append_right (le_refl _)]
    simp
  have hdrop : (semChars sem ++ '_' :: ds).drop ((semChars sem).length + 1) = ds := by
    have hsplit : semChars sem ++ '_' :: ds = (semChars sem ++ ['_']) ++ ds := by
      simp
    rw [hsplit, List.drop_left' (by simp)]
  simp only [readOneAttr, getAttribVector_prefix sem hsem]
  rw [hget, if_pos rfl, hdrop]
  match ds, hne with
  | c :: rest, _ =>
    rw [atoiChars_digits c rest (hdig c (by simp)),
      atoiDigits_eq_valFrom (c :: rest) hdig 0,
      sizeTOfInt_small (lt_trans hlt (by norm_num))]

theorem readOneAttr_nosuffix (p : Attributes) (sem : Semantic)
    (hsem : sem ≠ .jointmatrix) (a : String) :
    readOneAttr p (semChars sem) (.str a) =
      p.set sem (setSlot (p.get sem) 0 a) := by
  have h := getAttribVector_prefix sem hsem []
  rw [List.append_nil] at h
  have hget : (semChars sem).getD (semChars sem).length (Char.ofNat 0) =
      Char.ofNat 0 := by
    rw [List.getD_eq_getElem?_getD, List.getElem?_eq_none (le_refl _)]
    rfl
  simp only [readOneAttr, h]
  rw [hget, if_neg (by decide)]

theorem readOneAttr_nonStr (p : Attributes) (attr : List Char) :
    readOneAttr p attr .nonStr = p := rfl

theorem readOneAttr_unmatched (p : Attributes) (attr : List Char)
    (h : getAttribVector attr = none) (v : JsonAttrVal) :
    readOneAttr p attr v = p := by
  cases v with
  | nonStr => rfl
  | str s => simp only [readOneAttr, h]

theorem setSlot_length (v : List (Option String)) (i : Nat) (a : String) :
    (setSlot v i a).length = max v.length (i + 1) := by
  unfold setSlot
  split <;> rename_i h <;> simp <;> omega

theorem setSlot_get_self (v : List (Option String)) (i : Nat) (a : String) :
    (setSlot v i a).getD i none = some a := by
  unfold setSlot
  rw [List.getD_eq_getElem?_getD]
  split <;> rename_i h
  · rw [List.getElem?_set_self (by simp; omega)]
    rfl
  · rw [List.getElem?_set_self (by omega)]
    rfl

theorem setSlot_get_other (v : List (Option String)) (i : Nat) (a : String)
    (k : Nat) (hk : k ≠ i) :
    (setSlot v i a).getD k none = v.getD k none := by
  unfold setSlot
  rw [List.getD_eq_getElem?_getD, List.getElem?_set_ne (Ne.symm hk)]
  split <;> rename_i h
  · rcases Nat.lt_or_ge k v.length with hlt | hge
    · rw [List.getElem?_append_left hlt, List.getD_eq_getElem?_getD]
    · rw [List.getElem?_append_right hge, List.getD_eq_getElem?_getD,
        List.getElem?_eq_none hge, List.getElem?_replicate]
      split <;> rfl
  · rw [List.getD_eq_getElem?_getD]

theorem attributes_get_set_self (p : Attributes) (sem : Semantic)
    (v : List (Option String)) : (p.set sem v).get sem = v := by
  cases sem <;> rfl

theorem attributes_get_set_other (p : Attributes) (sem sem' : Semantic)
    (v : List (Option String)) (h : sem' ≠ sem) :
    (p.set sem v).get sem' = p.get sem' := by
  cases sem <;> cases sem' <;> first | rfl | exact absurd rfl h

/-- C9 (counterexample): the key `JOINTMATRIX_1` (with a string accessor
reference) does *not* populate slot 1 of the `jointmatrix` sequence — the
`JOINT` prefix test matches first, the character after `JOINT` is `'M'`
(not `'_'`), and the accessor lands in slot 0 of the `joint` sequence. -/
theorem C9_counterexample :
    (readOneAttr {} ['J', 'O', 'I', 'N', 'T', 'M', 'A', 'T', 'R', 'I', 'X', '_', '1']
        (.str "acc0")).jointmatrix = [] ∧
    (readOneAttr {} ['J', 'O', 'I', 'N', 'T', 'M', 'A', 'T', 'R', 'I', 'X', '_', '1']
        (.str "acc0")).joint = [some "acc0"] := by
  constructor <;> rfl

/-- C9 (amended): for the semantics whose literal is not prefixed by
another tested literal (all but `JOINTMATRIX`, whose keys are captured by
the earlier `JOINT` test and land in slot 0 of the `joint` sequence): a
key `<semantic>_<digits>` stores the referenced accessor id at slot
`<digits>` of that semantic's sequence, growing it to exactly
`max (old length) (slot+1)` and leaving every other slot — in particular
absent lower slots — unchanged (`none`, not zero-filled), with every other
semantic's sequence untouched; a key with no suffix after the literal
selects slot 0; a non-string attribute value is skipped; a key matching no
semantic prefix test is skipped.  (Slot values are restricted to the `int`
range, since the source parses them with `atoi`.) -/
theorem C9_attributes_amended (p : Attributes) (sem : Semantic)
    (hsem : sem ≠ .jointmatrix) (a : String) :
    (∀ ds : List Char, ds ≠ [] → (∀ c ∈ ds, isDigitChar c = true) →
      valFrom 0 ds < 2147483648 →
      ((readOneAttr p (semChars sem ++ '_' :: ds) (.str a)).get sem).getD
          (valFrom 0 ds) none = some a ∧
      ((readOneAttr p (semChars sem ++ '_' :: ds) (.str a)).get sem).length =
        max (p.get sem).length (valFrom 0 ds + 1) ∧
      (∀ k, k ≠ valFrom 0 ds →
        ((readOneAttr p (semChars sem ++ '_' :: ds) (.str a)).get sem).getD k none =
          (p.get sem).getD k none) ∧
      (∀ sem', sem' ≠ sem →
        (readOneAttr p (semChars sem ++ '_' :: ds) (.str a)).get sem' =
          p.get sem')) ∧
    ((readOneAttr p (semChars sem) (.str a)).get sem).getD 0 none = some a ∧
    (∀ attr, readOneAttr p attr .nonStr = p) ∧
    (∀ attr, getAttribVector attr = none → ∀ v, readOneAttr p attr v = p) := by
  refine ⟨fun ds hne hdig hlt => ?_, ?_, readOneAttr_nonStr p,
    readOneAttr_unmatched p⟩
  · rw [readOneAttr_suffixed p sem hsem a ds hne hdig hlt]
    rw [attributes_get_set_self]
    refine ⟨setSlot_get_self _ _ _, setSlot_length _ _ _,
      fun k hk => setSlot_get_other _ _ _ k hk,
      fun sem' hs => attributes_get_set_other p sem sem' _ hs⟩
  · rw [readOneAttr_nosuffix p sem hsem a, attributes_get_set_self]
    exact setSlot_get_self _ _ _

/-- Witness for C9 (amended) at the spec's own example: `TEXCOORD_1` on
empty attributes populates texcoord slot 1, the sequence has length 2 and
slot 0 stays absent (`none`), and the other sequences stay empty. -/
theorem C9_attributes_amended_witness :
    ((readOneAttr {} (semChars .texcoord ++ '_' :: ['1']) (.str "acc1")).get
        .texcoord).getD 1 none = some "acc1" ∧
    ((readOneAttr {} (semChars .texcoord ++ '_' :: ['1']) (.str "acc1")).get
        .texcoord).length = 2 ∧
    ((readOneAttr {} (semChars .texcoord ++ '_' :: ['1']) (.str "acc1")).get
        .texcoord).getD 0 none = none ∧
    (readOneAttr {} (semChars .texcoord ++ '_' :: ['1']) (.str "acc1")).get
        .position = [] := by
  have h := (C9_attributes_amended {} .texcoord (by decide) "acc1").1 ['1']
    (by decide) (by decide) (by decide)
  have hval : valFrom 0 ['1'] = 1 := rfl
  rw [hval] at h
  refine ⟨h.1, by rw [h.2.1]; rfl, ?_, ?_⟩
  · have h0 := h.2.2.1 0 (by decide)
    rw [h0]
    rfl
  · exact h.2.2.2 .position (by decide)

/-! ## C10: `Asset::FindUniqueID` returns an unused id -/

theorem valFrom_append (a : Nat) (l1 l2 : List Char) :
    valFrom a (l1 ++ l2) = valFrom (valFrom a l1) l2 := by
  unfold valFrom
  rw [List.foldl_append]

theorem digitChar_toNat {n : Nat} (h : n < 10) :
    (Nat.digitChar n).toNat = 48 + n := by
  interval_cases n <;> decide

theorem valFrom_decDigits (n : Nat) :
    ∀ a, valFrom a (decDigits n) = a * 10 ^ (decDigits n).length + n := by
  induction n using Nat.strong_induction_on with
  | _ n ih =>
    intro a
    rw [decDigits]
    split
    · rename_i h
      simp [valFrom, charVal, digitChar_toNat h]
      omega
    · rename_i h
      have hlt : n / 10 < n := Nat.div_lt_self (by omega) (by omega)
      rw [valFrom_append, ih (n / 10) hlt]
      have hdm : 10 * (n / 10) + n % 10 = n := Nat.div_add_mod n 10
      have hd : (Nat.digitChar (n % 10)).toNat = 48 + n % 10 :=
        digitChar_toNat (Nat.mod_lt n (by omega))
      simp only [valFrom, List.foldl_cons, List.foldl_nil, charVal, hd,
        List.length_append, List.length_cons, List.length_nil, List.length_singleton]
      have : 48 + n % 10 - 48 = n % 10 := by omega
      rw [this, pow_succ]
      calc 10 * (a * 10 ^ (decDigits (n / 10)).length + n / 10) + n % 10
          = a * (10 ^ (decDigits (n / 10)).length * 10) +
              (10 * (n / 10) + n % 10) := by ring
        _ = a * (10 ^ (decDigits (n / 10)).length * 10) + n := by rw [hdm]

theorem decDigits_val (n : Nat) : valFrom 0 (decDigits n) = n := by
  simpa using valFrom_decDigits n 0

theorem decDigits_injective : Function.Injective decDigits := by
  intro m n h
  have hv := congrArg (valFrom 0) h
  rwa [decDigits_val, decDigits_val] at hv

theorem toDigitsCore_eq_decDigits (fuel : Nat) :
    ∀ (n : Nat) (ds : List Char), n < fuel →
      Nat.toDigitsCore 10 fuel n ds = decDigits n ++ ds := by
  induction fuel with
  | zero => intro n ds h; omega
  | succ f ih =>
    intro n ds h
    have hstep : Nat.toDigitsCore 10 (f + 1) n ds =
        if n / 10 = 0 then Nat.digitChar (n % 10) :: ds
        else Nat.toDigitsCore 10 f (n / 10) (Nat.digitChar (n % 10) :: ds) := by
      show (let d := Nat.digitChar (n % 10); let n' := n / 10;
        if n' = 0 then d :: ds else Nat.toDigitsCore 10 f n' (d :: ds)) = _
      rfl
    rw [hstep]
    split
    · rename_i h10
      have hn : n < 10 := by omega
      rw [decDigits, if_pos hn, Nat.mod_eq_of_lt hn]
      rfl
    · rename_i h10
      have hge : 10 ≤ n := by omega
      have hlt : n / 10 < f :=
        lt_of_lt_of_le (Nat.div_lt_self (by omega) (by omega)) (by omega)
      rw [ih (n / 10) _ hlt]
      have hdd : decDigits n = decDigits (n / 10) ++ [Nat.digitChar (n % 10)] := by
        rw [decDigits]
        rw [if_neg (by omega)]
      rw [hdd]
      simp

theorem natReprData_injective :
    Function.Injective (fun n => (Nat.repr n).data) := by
  intro m n h
  simp only [Nat.repr, Nat.toDigits, List.asString] at h
  rw [toDigitsCore_eq_decDigits (m + 1) m [] (by omega),
    toDigitsCore_eq_decDigits (n + 1) n [] (by omega)] at h
  simp only [List.append_nil] at h
  exact decDigits_injective h

theorem candidate_injective (base : String) :
    Function.Injective (fun i => base ++ "_" ++ Nat.repr i) := by
  intro i j h
  apply natReprData_injective
  have hd := congrArg String.data h
  simp only [String.data_append, List.append_assoc] at hd
  exact List.append_cancel_left (List.append_cancel_left hd)

theorem exists_fresh (f : Nat → String) (hf : Function.Injective f)
    (used : List String) : ∃ i, i < used.length + 1 ∧ f i ∉ used := by
  by_contra hcon
  push_neg at hcon
  have hsub : ∀ x ∈ (List.range (used.length + 1)).map f, x ∈ used := by
    intro x hx
    obtain ⟨i, hi, rfl⟩ := List.mem_map.mp hx
    exact hcon i (List.mem_range.mp hi)
  have hnd : ((List.range (used.length + 1)).map f).Nodup :=
    List.Nodup.map hf (List.nodup_range _)
  have h1 : ((List.range (used.length + 1)).map f).toFinset.card =
      used.length + 1 := by
    rw [List.toFinset_card_of_nodup hnd]
    simp
  have h2 : ((List.range (used.length + 1)).map f).toFinset ⊆ used.toFinset := by
    intro x hx
    rw [List.mem_toFinset] at hx ⊢
    exact hsub x hx
  have h3 := Finset.card_le_card h2
  have h4 : used.toFinset.card ≤ used.length := List.toFinset_card_le used
  omega

/-- C10: `Asset::FindUniqueID` always returns an id that is not in the
used-id map at the time of the call, so an immediately following
`Create` with that id succeeds (it cannot fail with `DuplicateId`). -/
theorem C10_findUniqueID_spec (used : List String) (str suffix : String) :
    Asset.FindUniqueID used str suffix ∉ used ∧
    ∀ d : LazyDictState,
      lazyCreate d used (Asset.FindUniqueID used str suffix) =
        .ok (lazyAdd d used (Asset.FindUniqueID used str suffix)) := by
  have hsuff : ∀ base, findUniqueSuffixed used base ∉ used := by
    intro base
    unfold findUniqueSuffixed
    split
    · rename_i h
      exact h
    · obtain ⟨i0, hi0lt, hi0⟩ :=
        exists_fresh (fun i => base ++ "_" ++ Nat.repr i)
          (candidate_injective base) used
      cases hfind : (List.range (used.length + 1)).find?
          (fun i => !(List.contains used (base ++ "_" ++ Nat.repr i))) with
      | none =>
        exfalso
        rw [List.find?_eq_none] at hfind
        have hc := hfind i0 (List.mem_range.mpr hi0lt)
        simp only [Bool.not_eq_true', Bool.not_eq_false] at hc
        exact hi0 (by simpa using hc)
      | some j =>
        have hj := List.find?_some hfind
        simp only [Bool.not_eq_true'] at hj
        simpa using hj
  have hfresh : Asset.FindUniqueID used str suffix ∉ used := by
    unfold Asset.FindUniqueID
    split
    · rename_i h
      exact h.2
    · exact hsuff _
  exact ⟨hfresh, fun d => by unfold lazyCreate; rw [if_neg hfresh]⟩

/-! ## C7: lazy-dictionary `Create`/`Get` semantics -/

/-- C7: (1) after any successful `Create(id)`, a second `Create(id)` on any
dictionary of the same document fails with `DuplicateId`, because the check
runs against the document-global used-id set; (2) `Get(id)` on an
unmaterialized id whose attached section has no member with that key fails
with `MissingObject`; (3) `Get(id)` on an unmaterialized id of a
dictionary with no attached section fails with `MissingSection`;
(4) `Get(id)` on an already materialized id returns the recorded instance
index with the dictionary, used-id set and manifest untouched. -/
theorem C7_lazyDict_spec :
    (∀ (dA dB : LazyDictState) (used : List String) (id : String)
        (r : LazyDictState × List String × Nat),
      lazyCreate dA used id = .ok r →
      lazyCreate dB r.2.1 id = .error .duplicateId) ∧
    (∀ (d : LazyDictState) (used : List String) (id : String)
        (sec : List (String × JVal)),
      d.mObjsById.find? (fun p => p.1 == id) = none →
      d.mDict = some sec →
      sec.find? (fun mem => mem.1 == id) = none →
      lazyGet d used id = .error .missingObject) ∧
    (∀ (d : LazyDictState) (used : List String) (id : String),
      d.mObjsById.find? (fun p => p.1 == id) = none →
      d.mDict = none →
      lazyGet d used id = .error .missingSection) ∧
    (∀ (d : LazyDictState) (used : List String) (id key : String) (i : Nat),
      d.mObjsById.find? (fun p => p.1 == id) = some (key, i) →
      lazyGet d used id = .ok (d, used, i)) := by
  refine ⟨fun dA dB used id r hc => ?_, fun d used id sec h1 h2 h3 => ?_,
    fun d used id h1 h2 => ?_, fun d used id key i h1 => ?_⟩
  · unfold lazyCreate at hc ⊢
    split at hc
    · exact absurd hc (by simp)
    · have hused : r.2.1 = used ++ [id] := by
        have heq := (Except.ok.injEq _ _).mp hc
        rw [← heq]
        rfl
      rw [hused, if_pos (by simp)]
  · simp only [lazyGet, h1, h2, h3]
  · simp only [lazyGet, h1, h2]
  · simp only [lazyGet, h1]

/-- Witness for C7 at concrete dictionaries: create `"n"` then create it
again on another dictionary (`DuplicateId`); get `"x"` from an attached
section without it (`MissingObject`); get `"x"` from a detached dictionary
(`MissingSection`); get the materialized `"x"` (index 0, state
untouched). -/
theorem C7_lazyDict_spec_witness :
    lazyCreate dictA [] "n" = .ok (lazyAdd dictA [] "n") ∧
    lazyCreate dictB (lazyAdd dictA [] "n").2.1 "n" = .error .duplicateId ∧
    lazyGet dictB [] "x" = .error .missingObject ∧
    lazyGet dictC [] "x" = .error .missingSection ∧
    lazyGet dictA ["x"] "x" = .ok (dictA, ["x"], 0) := by
  refine ⟨rfl, ?_, ?_, ?_, ?_⟩
  · exact C7_lazyDict_spec.1 dictA dictB [] "n" (lazyAdd dictA [] "n") rfl
  · exact C7_lazyDict_spec.2.1 dictB [] "x" [("y", .obj)] rfl rfl (by decide)
  · exact C7_lazyDict_spec.2.2.1 dictC [] "x" rfl rfl
  · exact C7_lazyDict_spec.2.2.2 dictA ["x"] "x" "x" 0 rfl

/-! ## C8: the manifest-length gate of `Asset::Load` -/

/-- C8 (counterexample): manifest length `4294967295` = 2^32 - 1 is below
4 GiB = 4294967296, so by the claim the length checks should pass, but the
source rejects every length `>= numeric_limits<uint32_t>::max()` and fails
with `InvalidDocument`. -/
theorem C8_counterexample :
    2 ≤ 4294967295 ∧ (4294967295 : Nat) < 4294967296 ∧
    sceneLengthCheck 4294967295 = .error .invalidDocument := by
  refine ⟨by norm_num, by norm_num, ?_⟩
  rfl

/-- C8 (amended): `Asset::Load` fails with `InvalidDocument` when the
manifest length is below 2 bytes, fails with `InvalidDocument` when it is
at least `4294967295` (4 GiB - 1, the `uint32_t` maximum), and the length
checks pass for every length in `[2, 4294967295)`. -/
theorem C8_amended (len : Nat) :
    (len < 2 → sceneLengthCheck len = .error .invalidDocument) ∧
    (4294967295 ≤ len → sceneLengthCheck len = .error .invalidDocument) ∧
    (2 ≤ len → len < 4294967295 → sceneLengthCheck len = .ok ()) := by
  refine ⟨fun h => ?_, fun h => ?_, fun h1 h2 => ?_⟩
  · simp only [sceneLengthCheck]; rw [if_pos h]
  · simp only [sceneLengthCheck]; rw [if_neg (by omega), if_pos h]
  · simp only [sceneLengthCheck]; rw [if_neg (by omega), if_neg (by omega)]

/-! ## C2: the 4-influence cap of the skin exporter -/

theorem foldl_processBone_flat (bones : List BoneInput) :
    ∀ st : SkinArrays,
      bones.foldl processBoneWeights st = (flatContribs bones).foldl processTriple st := by
  induction bones with
  | nil => intro st; rfl
  | cons b bs ih =>
    intro st
    have hflat : flatContribs (b :: bs) =
        (b.weights.map fun vw => (b.jointIdx, vw.1, vw.2)) ++ flatContribs bs := by
      simp [flatContribs]
    rw [List.foldl_cons, ih, hflat, List.foldl_append]
    congr 1
    unfold processBoneWeights
    rw [List.foldl_map]
    rfl

theorem processTriple_lengths (st : SkinArrays) (t : Nat × Nat × ℚ) :
    (processTriple st t).vertexJointData.length = st.vertexJointData.length ∧
    (processTriple st t).vertexWeightData.length = st.vertexWeightData.length ∧
    (processTriple st t).jointsPerVertex.length = st.jointsPerVertex.length := by
  unfold processTriple processOne
  split <;> simp

theorem getD_set_ne {α : Type} (l : List α) (i k : Nat) (x d : α) (h : i ≠ k) :
    (l.set i x).getD k d = l.getD k d := by
  rw [List.getD_eq_getElem?_getD, List.getElem?_set_ne h,
    List.getD_eq_getElem?_getD]

theorem getD_set_self {α : Type} (l : List α) (i : Nat) (x d : α)
    (h : i < l.length) : (l.set i x).getD i d = x := by
  rw [List.getD_eq_getElem?_getD, List.getElem?_set_self h]
  rfl

theorem vertexView_foldl (cs : List (Nat × Nat × ℚ)) :
    ∀ (st : SkinArrays) (v : Nat),
      v < st.vertexJointData.length → v < st.vertexWeightData.length →
      v < st.jointsPerVertex.length →
      vertexView (cs.foldl processTriple st) v =
        singleFold (vertexView st v)
          (cs.filterMap fun t => if t.2.1 = v then some (t.1, t.2.2) else none) := by
  induction cs with
  | nil => intro st v _ _ _; rfl
  | cons t cs ih =>
    intro st v h1 h2 h3
    obtain ⟨hl1, hl2, hl3⟩ := processTriple_lengths st t
    rw [List.foldl_cons, List.filterMap_cons]
    by_cases hv : t.2.1 = v
    · rw [if_pos hv]
      rw [ih (processTriple st t) v (by omega) (by omega) (by omega)]
      have hstep : vertexView (processTriple st t) v =
          singleStep (vertexView st v) (t.1, t.2.2) := by
        unfold processTriple processOne singleStep vertexView
        rw [hv]
        split <;> rename_i hc
        · rfl
        · simp only [getD_set_self _ _ _ _ h1, getD_set_self _ _ _ _ h2,
            getD_set_self _ _ _ _ h3]
      rw [hstep]
      rfl
    · rw [if_neg hv]
      rw [ih (processTriple st t) v (by omega) (by omega) (by omega)]
      have hsame : vertexView (processTriple st t) v = vertexView st v := by
        unfold processTriple processOne vertexView
        split
        · rfl
        · simp only [getD_set_ne _ _ _ _ _ hv]
      rw [hsame]

theorem singleFold_cons (s : Vec4 × Vec4 × Nat) (p : Nat × ℚ)
    (ps : List (Nat × ℚ)) :
    singleFold s (p :: ps) = singleFold (singleStep s p) ps := rfl

theorem singleFold_capped (ps : List (Nat × ℚ)) :
    ∀ (jv wv : Vec4), singleFold (jv, wv, 4) ps = (jv, wv, 4) := by
  induction ps with
  | nil => intro jv wv; rfl
  | cons p ps ih =>
    intro jv wv
    rw [singleFold_cons]
    have : singleStep (jv, wv, 4) p = (jv, wv, 4) := by
      unfold singleStep
      rw [if_pos (by norm_num)]
    rw [this, ih]

theorem singleFold_zero (ps : List (Nat × ℚ)) :
    singleFold (Vec4.zero, Vec4.zero, 0) ps =
      (firstFourVec (ps.map fun q => (q.1 : ℚ)),
       firstFourVec (ps.map Prod.snd),
       min ps.length 4) := by
  rcases ps with _ | ⟨p0, _ | ⟨p1, _ | ⟨p2, _ | ⟨p3, rest⟩⟩⟩⟩
  · rfl
  · rfl
  · rfl
  · rfl
  · rw [singleFold_cons, singleFold_cons, singleFold_cons, singleFold_cons]
    have hst : singleStep (singleStep (singleStep (singleStep
        (Vec4.zero, Vec4.zero, 0) p0) p1) p2) p3 =
        (⟨(p0.1 : ℚ), (p1.1 : ℚ), (p2.1 : ℚ), (p3.1 : ℚ)⟩,
         ⟨p0.2, p1.2, p2.2, p3.2⟩, 4) := rfl
    rw [hst, singleFold_capped]
    have hmin : min (p0 :: p1 :: p2 :: p3 :: rest).length 4 = 4 := by
      simp
    rw [hmin]
    rfl

/-- C2: in the skin exporter, every vertex keeps at most 4
`(jointIndex, weight)` influence pairs: for every vertex `v` of the mesh,
after the bone loop the vertex's joint vector and weight vector hold
exactly the first four influences contributed to `v`, in contribution
order (bones in order, each bone's weight list in order), remaining slots
zero; later influences are silently dropped (the counter caps at 4) and
no reordering by weight magnitude takes place. -/
theorem C2_exportSkin_spec (numVerts : Nat) (bones : List BoneInput) (v : Nat)
    (hv : v < numVerts) :
    vertexView (exportSkinArrays numVerts bones) v =
      (firstFourVec ((contributionsTo v bones).map fun q => (q.1 : ℚ)),
       firstFourVec ((contributionsTo v bones).map Prod.snd),
       min (contributionsTo v bones).length 4) := by
  unfold exportSkinArrays
  rw [foldl_processBone_flat]
  rw [vertexView_foldl _ _ v (by simp [initSkinArrays]; omega)
    (by simp [initSkinArrays]; omega) (by simp [initSkinArrays]; omega)]
  have hinit : vertexView (initSkinArrays numVerts) v = (Vec4.zero, Vec4.zero, 0) := by
    unfold vertexView initSkinArrays
    simp only [List.getD_eq_getElem?_getD, List.getElem?_replicate_of_lt hv]
    rfl
  rw [hinit]
  have hfm : (flatContribs bones).filterMap
      (fun t => if t.2.1 = v then some (t.1, t.2.2) else none) =
      contributionsTo v bones := by
    unfold flatContribs contributionsTo
    induction bones with
    | nil => rfl
    | cons b bs ih =>
      simp only [List.flatMap_cons, List.filterMap_append, ih]
      congr 1
      rw [List.filterMap_map]
      rfl
  rw [hfm]
  exact singleFold_zero _

/-- Witness for C2 at the spec's example: a vertex with contributed
weights `[0.1, 0.2, 0.3, 0.2, 0.2]` ends with the weight vector
`(0.1, 0.2, 0.3, 0.2)` — the first four in contribution order, the fifth
dropped — and an influence counter of 4. -/
theorem C2_exportSkin_spec_witness :
    0 < 1 ∧
    vertexView (exportSkinArrays 1 [fiveWeightBone]) 0 =
      (⟨((0 : Nat) : ℚ), ((0 : Nat) : ℚ), ((0 : Nat) : ℚ), ((0 : Nat) : ℚ)⟩,
       ⟨1/10, 2/10, 3/10, 2/10⟩, 4) := by
  refine ⟨by decide, ?_⟩
  rw [C2_exportSkin_spec 1 [fiveWeightBone] 0 (by decide)]
  rfl

/-- Witness for C8 (amended) at lengths 1, 4294967295 and 100. -/
theorem C8_amended_witness :
    ((1 : Nat) < 2 ∧ sceneLengthCheck 1 = .error .invalidDocument) ∧
    ((4294967295 : Nat) ≤ 4294967295 ∧
      sceneLengthCheck 4294967295 = .error .invalidDocument) ∧
    ((2 : Nat) ≤ 100 ∧ (100 : Nat) < 4294967295 ∧ sceneLengthCheck 100 = .ok ()) :=
  ⟨⟨by norm_num, (C8_amended 1).1 (by norm_num)⟩,
   ⟨le_refl _, (C8_amended 4294967295).2.1 (le_refl _)⟩,
   ⟨by norm_num, by norm_num, (C8_amended 100).2.2 (by norm_num) (by norm_num)⟩⟩

end BVHSpec
